import Mathlib

/-!
Shallow embedding of the sensitive-data classification core of
`db_sensitive_audit/database_auditor.py` (class `DatabaseAuditor`), together
with proofs about the embedded operations.

Python strings are modelled as Lean `String`; the handful of Python string
operations used by the source (`str.strip`, `str.lower`, substring `in`,
`str.startswith`, slicing, `str.split`) are implemented over the underlying
character list so that every definition evaluates by kernel reduction.
Regular expressions are modelled abstractly: a `Pattern` carries its source
text and an optional matcher (`none` models a pattern on which `re` raises
`re.error`); `re.match` is start-anchored, so a matcher is an arbitrary
`String → Bool`, and the one concrete pattern of the default rule set
(`^1[3-9]\d{9}$`) gets its actual semantics.
-/

namespace DbAudit

/-- Characters treated as whitespace by Python's `str.strip()`. -/
def isWsChar (c : Char) : Bool :=
  c = ' ' || c = '\t' || c = '\n' || c = '\r' || c = '\x0b' || c = '\x0c'

/-- Python `str.strip()`: drop leading and trailing whitespace. -/
def pyStrip (s : String) : String :=
  ⟨((s.data.dropWhile isWsChar).reverse.dropWhile isWsChar).reverse⟩

/-- ASCII lower-casing of one character, as `str.lower()` does on ASCII. -/
def lowerChar (c : Char) : Char :=
  if 65 ≤ c.toNat && c.toNat ≤ 90 then Char.ofNat (c.toNat + 32) else c

/-- Python `str.lower()` (restricted to its ASCII action). -/
def pyLower (s : String) : String :=
  ⟨s.data.map lowerChar⟩

/-- `needle` occurs as a contiguous sublist of `hay`. -/
def listContainsSub (needle hay : List Char) : Bool :=
  hay.tails.any (fun t => needle.isPrefixOf t)

/-- Python `needle in hay` on strings. -/
def pyContains (hay needle : String) : Bool :=
  listContainsSub needle.data hay.data

/-- Python `s.startswith(pre)`. -/
def pyStartsWith (s pre : String) : Bool :=
  pre.data.isPrefixOf s.data

/-- Python `s[:cap] + "..." if len(s) > cap else s`. -/
def pyTruncate (cap : Nat) (s : String) : String :=
  if cap < s.length then String.mk (s.data.take cap) ++ "..." else s

/-- Split a character list at every occurrence of `sep`, keeping empty parts,
as Python `str.split(sep)` does. -/
def pySplitChar (sep : Char) : List Char → List (List Char)
  | [] => [[]]
  | c :: rest =>
    match pySplitChar sep rest with
    | [] => [[]]
    | p :: ps => if c = sep then [] :: p :: ps else (c :: p) :: ps

/-- Python `s.split(sep)` for a one-character separator. -/
def pySplit (sep : Char) (s : String) : List String :=
  (pySplitChar sep s.data).map String.mk

/-- ASCII decimal digit test. -/
def isAsciiDigit (c : Char) : Bool :=
  48 ≤ c.toNat && c.toNat ≤ 57

/-- Value of a list of decimal digits. -/
def digitsVal (l : List Char) : Nat :=
  l.foldl (fun n c => n * 10 + (c.toNat - 48)) 0

/-- Python `int(s)`: optional sign followed by a nonempty digit string after
stripping whitespace; `none` models the `ValueError` raised otherwise. -/
def pyInt (s : String) : Option Int :=
  match (pyStrip s).data with
  | [] => none
  | c :: rest =>
    if c = '-' then
      if !rest.isEmpty && rest.all isAsciiDigit then some (-(digitsVal rest : Int)) else none
    else if c = '+' then
      if !rest.isEmpty && rest.all isAsciiDigit then some (digitsVal rest : Int) else none
    else if (c :: rest).all isAsciiDigit then some (digitsVal (c :: rest) : Int)
    else none

/-- A Python value as it reaches the classifier: `None`, a string, an int or
a bool (the sampled-row cell types the auditor distinguishes). -/
inductive PyVal where
  | vNone : PyVal
  | vStr (s : String) : PyVal
  | vInt (n : Int) : PyVal
  | vBool (b : Bool) : PyVal
deriving DecidableEq

/-- Python `str(value)` on the modelled values. -/
def pyStr : PyVal → String
  | .vNone => "None"
  | .vStr s => s
  | .vInt n => toString n
  | .vBool b => if b then "True" else "False"

/-- A regular-expression pattern: its source text plus its matching semantics.
`sem = none` models a pattern on which `re.match` raises `re.error`;
`sem = some m` models `bool(re.match(pattern, s)) = m s` (start-anchored). -/
structure Pattern where
  source : String
  sem : Option (String → Bool)

/-- Matcher for the default rule `^1[3-9]\d{9}$`: the character `1`, a digit
`3`–`9`, then exactly nine digits, anchored at both ends. -/
def isChineseMobile (s : String) : Bool :=
  match s.data with
  | '1' :: d :: rest => (51 ≤ d.toNat && d.toNat ≤ 57) && rest.length = 9 && rest.all isAsciiDigit
  | _ => false

/-- One entry of `"sensitive_rules"`: field keywords, value patterns and a
human description. -/
structure RuleConfig where
  field_keywords : List String
  regex_patterns : List Pattern
  description : String

/-- The `"settings"` block of the rule configuration. -/
structure Settings where
  enabled_rules : List String
  case_sensitive : Bool
  max_field_length : Nat
  exclude_test_data : Bool
  test_patterns : List String

/-- A loaded rule configuration: category name → rule, plus settings.
Python dicts are modelled as association lists in insertion order. -/
structure RulesConfig where
  sensitive_rules : List (String × RuleConfig)
  settings : Settings

/-- Python `d[k]` lookup on an association-list dict (first binding wins;
dicts built by the source never hold duplicate keys). -/
def dictGet (k : String) : List (String × β) → Option β
  | [] => none
  | (k', v) :: rest => if k' = k then some v else dictGet k rest

/-- Python `d[k] = v` on an association-list dict: update in place if the key
exists (keeping its position), otherwise append at the end. -/
def dictSet (k : String) (v : β) : List (String × β) → List (String × β)
  | [] => [(k, v)]
  | (k', v') :: rest => if k' = k then (k, v) :: rest else (k', v') :: dictSet k v rest

/-- `_get_default_rules`: the hard-coded fallback rule configuration. -/
def default_rules : RulesConfig where
  sensitive_rules :=
    [("手机号",
      { field_keywords := ["phone", "mobile", "telephone"]
        regex_patterns := [{ source := "^1[3-9]\\d{9}$", sem := some isChineseMobile }]
        description := "中国手机号" })]
  settings :=
    { enabled_rules := ["手机号"]
      case_sensitive := false
      max_field_length := 100
      exclude_test_data := true
      test_patterns := ["test", "demo", "example", "sample", "fake"] }

/-- The pattern loop shared by classification and confirmation: try each
pattern in order, skipping malformed ones (`re.error` → `continue`), and stop
at the first successful start-anchored match. -/
def matchAnyPattern (patterns : List Pattern) (sv : String) : Bool :=
  match patterns with
  | [] => false
  | p :: rest =>
    match p.sem with
    | none => matchAnyPattern rest sv
    | some m => if m sv then true else matchAnyPattern rest sv

/-- One per-column entry of a detection result as `confirm_sensitive_data`
receives it: either a dict with the `value` / `field_match` / `value_match`
keys, or something that is not a dict (skipped by the source). -/
inductive FieldEntry where
  | dict (value : Option PyVal) (field_match : Bool) (value_match : Bool) : FieldEntry
  | nondict : FieldEntry

/-- Detection results in the loose, JSON-like shape `confirm_sensitive_data`
accepts: category name → (column name → entry). -/
abbrev SensAny : Type := List (String × List (String × FieldEntry))

/-- Inner loop of `confirm_sensitive_data` over one category's fields:
skip non-dict entries and `None` values, then re-run the category's patterns
against the stripped stringified value; the first success short-circuits. -/
def confirmFields (patterns : List Pattern) : List (String × FieldEntry) → Bool
  | [] => false
  | (_, fi) :: rest =>
    match fi with
    | .nondict => confirmFields patterns rest
    | .dict none _ _ => confirmFields patterns rest
    | .dict (some v) _ _ =>
      if matchAnyPattern patterns (pyStrip (pyStr v)) then true
      else confirmFields patterns rest

/-- Outer loop of `confirm_sensitive_data` over the detected categories:
skip categories absent from the loaded rules. -/
def confirmCats (rules : List (String × RuleConfig)) : SensAny → Bool
  | [] => false
  | (rn, fields) :: rest =>
    match dictGet rn rules with
    | none => confirmCats rules rest
    | some rc =>
      if confirmFields rc.regex_patterns fields then true
      else confirmCats rules rest

/-- `confirm_sensitive_data`: decide whether a detection result contains at
least one raw value that re-validates against its category's patterns under
the loaded rule configuration; answers `"是"` (yes) or `"否"` (no). -/
def confirm_sensitive_data (cfg : RulesConfig) (si : SensAny) : String :=
  if si.isEmpty then "否"
  else if confirmCats cfg.sensitive_rules si then "是" else "否"

/-- One recorded Column Match: displayed value (`none` for a null source
value), whether the field name matched a keyword, and whether the value
matched a pattern. -/
structure MatchInfo where
  value : Option String
  field_match : Bool
  value_match : Bool
deriving DecidableEq

/-- A classification result: category name → (column name → Column Match). -/
abbrev SensInfo : Type := List (String × List (String × MatchInfo))

/-- The field-name heuristic: some keyword of the rule occurs as a substring
of the column name, case-folded unless `case_sensitive` is set. -/
def fieldMatches (caseSensitive : Bool) (keywords : List String) (column : String) : Bool :=
  let columnCheck := if caseSensitive then column else pyLower column
  keywords.any (fun kw => pyContains columnCheck (if caseSensitive then kw else pyLower kw))

/-- The test-data exclusion: the stripped stringified value contains, case-
insensitively, one of the configured test markers (when exclusion is on). -/
def isTestData (st : Settings) (strValue : String) : Bool :=
  st.exclude_test_data &&
    st.test_patterns.any (fun tp => pyContains (pyLower strValue) (pyLower tp))

/-- `sensitive_info[rule_name][column] = mi`, creating the inner dict first
when the category key is absent, exactly as the source does. -/
def recordMatch (ruleName column : String) (mi : MatchInfo) (si : SensInfo) : SensInfo :=
  dictSet ruleName (dictSet column mi ((dictGet ruleName si).getD [])) si

/-- One iteration of the inner rule loop of `identify_sensitive_info` for a
fixed column/value pair: skip disabled rules; compute the field-name match;
for a non-null value first reject test data, then over-long values (both
rejections skip the category/column entirely), otherwise run the patterns;
record a Column Match when either heuristic fired. -/
def processRule (st : Settings) (column : String) (value : PyVal)
    (si : SensInfo) (rule : String × RuleConfig) : SensInfo :=
  if !st.enabled_rules.contains rule.1 then si
  else
    let isFieldMatch := fieldMatches st.case_sensitive rule.2.field_keywords column
    match value with
    | .vNone =>
      if isFieldMatch then recordMatch rule.1 column ⟨none, isFieldMatch, false⟩ si else si
    | v =>
      let strValue := pyStrip (pyStr v)
      if isTestData st strValue then si
      else if st.max_field_length < strValue.length then si
      else
        let isValueMatch := matchAnyPattern rule.2.regex_patterns strValue
        if isFieldMatch || isValueMatch then
          recordMatch rule.1 column ⟨some (pyTruncate 50 strValue), isFieldMatch, isValueMatch⟩ si
        else si

/-- `identify_sensitive_info`: classify one sampled record against the rule
configuration. Returns the empty mapping when the record is empty or its
length differs from the column list; otherwise folds the rule loop over each
aligned column/value pair. -/
def identify_sensitive_info (cfg : RulesConfig) (columns : List String)
    (record : List PyVal) : SensInfo :=
  if record.isEmpty || record.length ≠ columns.length then []
  else
    (columns.zip record).foldl
      (fun si cv => cfg.sensitive_rules.foldl (processRule cfg.settings cv.1 cv.2) si) []

/-- Look up the Column Match recorded for `(ruleName, column)`. -/
def lookupMatch (si : SensInfo) (ruleName column : String) : Option MatchInfo :=
  dictGet column ((dictGet ruleName si).getD [])

/-- One parsed datasource configuration record. -/
structure Datasource where
  datasource_name : String
  ip : String
  port : Int
  username : String
  password : String
deriving DecidableEq

/-- Line loop of `parse_datasource_config`. Blank lines and `#` comments are
skipped; lines with fewer than 5 comma-separated fields are skipped (with a
logged warning); on a line with at least 5 fields, `int(parts[2])` is taken —
`Except.error` models the uncaught `ValueError` when the port field is not
numeric, which aborts the whole parse. -/
def parseLines : List String → Except String (List Datasource)
  | [] => .ok []
  | line :: rest =>
    let l := pyStrip line
    if l == "" || pyStartsWith l "#" then parseLines rest
    else
      let parts := (pySplit ',' l).map pyStrip
      if 5 ≤ parts.length then
        match pyInt (parts.getD 2 "") with
        | some port =>
          (parseLines rest).map (fun ds =>
            { datasource_name := parts.getD 0 "", ip := parts.getD 1 "", port := port,
              username := parts.getD 3 "", password := parts.getD 4 "" } :: ds)
        | none => .error ("invalid literal for int() with base 10: " ++ parts.getD 2 "")
      else parseLines rest

/-- The lines `parse_datasource_config` iterates over: the text is stripped,
then split on newlines. -/
def configLines (t : String) : List String :=
  pySplit '\n' (pyStrip t)

/-- `parse_datasource_config`: parse the newline-separated
`name,host,port,username,password` records. -/
def parse_datasource_config (t : String) : Except String (List Datasource) :=
  parseLines (configLines t)

/-- A line the parser gets past without raising: blank, comment, fewer than
5 fields, or a numeric port field. -/
def goodLine (line : String) : Bool :=
  let l := pyStrip line
  let parts := (pySplit ',' l).map pyStrip
  l == "" || pyStartsWith l "#" || parts.length < 5 || (pyInt (parts.getD 2 "")).isSome

/-- The datasource a single line contributes, if any (skipped lines and
failing lines contribute nothing). -/
def parseGoodLine (line : String) : Option Datasource :=
  let l := pyStrip line
  if l == "" || pyStartsWith l "#" then none
  else
    let parts := (pySplit ',' l).map pyStrip
    if 5 ≤ parts.length then
      match pyInt (parts.getD 2 "") with
      | some port =>
        some { datasource_name := parts.getD 0 "", ip := parts.getD 1 "", port := port,
               username := parts.getD 3 "", password := parts.getD 4 "" }
      | none => none
    else none

/-- The level of a log call made by the rule loader. -/
inductive LogLevel where
  | info : LogLevel
  | warning : LogLevel
  | error : LogLevel
deriving DecidableEq

/-- The environments `load_sensitive_rules` can run in: the rule file is
absent, reading/parsing it raises (message `e`), or it parses to `cfg`. -/
inductive RulesEnv where
  | absent : RulesEnv
  | readFailure (e : String) : RulesEnv
  | parsed (cfg : RulesConfig) : RulesEnv

/-- `load_sensitive_rules`: return the parsed configuration when the file
parses, and the hard-coded default otherwise — a missing file logs a warning,
a read/parse failure logs an error. Total: never propagates a failure. -/
def load_sensitive_rules : RulesEnv → RulesConfig × List (LogLevel × String)
  | .absent =>
    (default_rules,
      [(.warning, "敏感信息规则文件不存在: config/sensitive_rules.json，使用默认规则")])
  | .readFailure e =>
    (default_rules, [(.error, "加载敏感信息规则失败: " ++ e ++ "，使用默认规则")])
  | .parsed cfg => (cfg, [])

/-- The per-column display form built by `get_table_info`: null preserved,
ints and bools preserved, everything else stringified and truncated to 100
characters plus an ellipsis. -/
inductive DisplayCell where
  | dNull : DisplayCell
  | dInt (n : Int) : DisplayCell
  | dBool (b : Bool) : DisplayCell
  | dStr (s : String) : DisplayCell
deriving DecidableEq

/-- The value coercion of `get_table_info` for one column of the sampled
record. -/
def columnDisplay (v : PyVal) : DisplayCell :=
  match v with
  | .vNone => .dNull
  | .vInt n => .dInt n
  | .vBool b => .dBool b
  | .vStr s => .dStr (pyTruncate 100 s)

/-- The `记录总数` (record count) cell of a risk finding: a number for
sensitive-data findings, a dash for privilege findings. -/
inductive CountCell where
  | cnum (n : Int) : CountCell
  | cdash : CountCell
deriving DecidableEq

/-- One Risk Finding row, with the source's dict keys as fields:
风险类型 / 风险等级 / 检查项 / 表名 / 字段名 / 敏感类型 / 风险描述 / 检测值 /
记录总数 / 建议. -/
structure Finding where
  riskType : String
  riskLevel : String
  checkItem : String
  tableName : String
  fieldName : String
  sensType : String
  riskDesc : String
  detectValue : String
  recordCount : CountCell
  suggestion : String
deriving DecidableEq

/-- One per-table row of a database's audit, as `_generate_audit_summary`
consumes it. `sensitiveInfo` is the parsed form of the `敏感信息` JSON
string; `none` models a string `json.loads` rejects (handled as `{}`). -/
structure TableRecord where
  tableName : String
  columnValueJson : String
  sensitiveInfo : Option SensInfo
  sensitiveConfirmed : String
  totalCount : Int

/-- A user-privilege record: a dict from (Chinese) column names such as
用户名 / 主机 / 超级权限 to yes/no strings. -/
abbrev UserRecord : Type := List (String × String)

/-- Python `user.get(k, '')`. -/
def ugetD (u : UserRecord) (k : String) : String :=
  (dictGet k u).getD ""

/-- The fixed high-risk privilege list of `_generate_audit_summary`:
super, file, shutdown, reload, process, grant, replication-slave,
replication-client. -/
def high_risk_permissions : List String :=
  ["超级权限", "文件权限", "关闭权限", "重载权限",
   "进程权限", "授权权限", "复制从权限", "复制客户端权限"]

/-- The high-risk privileges a user holds (`user.get(perm) == '是'`). -/
def heldHighRisks (u : UserRecord) : List String :=
  high_risk_permissions.filter (fun p => dictGet p u == some "是")

/-- The data-operation privileges checked for wildcard-host users. -/
def dmlPermissions : List String :=
  ["查询权限", "插入权限", "更新权限", "删除权限"]

/-- The wildcard-host condition: host is `%` and the user holds any of
select/insert/update/delete. -/
def wildcardHostRisk (u : UserRecord) : Bool :=
  ugetD u "主机" == "%" && dmlPermissions.any (fun p => dictGet p u == some "是")

/-- The findings the user loop of `_generate_audit_summary` emits for one
user record: a high-risk-privilege finding when the user holds any of the
fixed list (severity 高 iff the super privilege is held, else 中), and —
independently — a medium wildcard-host finding; both may fire. -/
def userFindings (u : UserRecord) : List Finding :=
  let username := ugetD u "用户名"
  let host := ugetD u "主机"
  let userHighRisks := heldHighRisks u
  (if userHighRisks.isEmpty then []
   else
     [{ riskType := "权限风险"
        riskLevel := if userHighRisks.contains "超级权限" then "高" else "中"
        checkItem := "用户权限", tableName := "-", fieldName := "-"
        sensType := "数据库权限"
        riskDesc := "用户 " ++ username ++ "@" ++ host ++ " 拥有高危权限: " ++
          String.intercalate ", " userHighRisks
        detectValue := toString userHighRisks.length ++ "个高危权限"
        recordCount := .cdash
        suggestion := "根据最小权限原则，移除不必要的高危权限" }]) ++
  (if wildcardHostRisk u then
     [{ riskType := "权限风险", riskLevel := "中"
        checkItem := "用户权限", tableName := "-", fieldName := "-"
        sensType := "主机权限"
        riskDesc := "用户 " ++ username ++ " 允许从任意主机(%)连接并具有数据操作权限"
        detectValue := "通配符主机权限"
        recordCount := .cdash
        suggestion := "限制用户只能从特定主机连接，避免使用通配符(%)" }]
   else [])

/-- The sensitive-data finding the table loop of `_generate_audit_summary`
emits for one table: only for tables confirmed `是` whose parsed detection
result is nonempty. -/
def sensitiveFindingForTable (database : String) (t : TableRecord) : List Finding :=
  if t.sensitiveConfirmed == "是" then
    let si := (t.sensitiveInfo).getD []
    if si.isEmpty then []
    else
      let sensitiveTypes := si.map Prod.fst
      let sensitiveFields := si.flatMap (fun p => p.2.map (fun q => q.1 ++ "(" ++ p.1 ++ ")"))
      let sampleValues := si.flatMap (fun p => p.2.filterMap (fun q =>
        match q.2.value with
        | some v => if v == "" then none else some (pyTruncate 10 v)
        | none => none))
      let typesStr := String.intercalate "、" sensitiveTypes
      let fieldsStr := String.intercalate "、" (sensitiveFields.take 3) ++
        (if 3 < sensitiveFields.length then "等" ++ toString sensitiveFields.length ++ "个字段"
         else "")
      [{ riskType := "敏感信息", riskLevel := "高", checkItem := database
         tableName := t.tableName, fieldName := fieldsStr, sensType := typesStr
         riskDesc := "表 " ++ t.tableName ++ " 包含敏感信息: " ++ typesStr
         detectValue := String.intercalate "、" (sampleValues.take 2) ++
           (if 2 < sampleValues.length then "..." else "")
         recordCount := .cnum t.totalCount
         suggestion := "对包含" ++ typesStr ++ "的字段进行加密或脱敏处理" }]
  else []

/-- All findings `_generate_audit_summary` appends before sorting: the
sensitive-data findings over every database's tables, then the per-user
privilege findings. -/
def auditEmission (users : List UserRecord)
    (dbinfo : List (String × List TableRecord)) : List Finding :=
  dbinfo.flatMap (fun p => p.2.flatMap (sensitiveFindingForTable p.1)) ++
    users.flatMap userFindings

/-- `risk_priority.get(x, 99)`: 高 = 1, 中 = 2, 低 = 3, anything else 99. -/
def riskPriority (lvl : String) : Nat :=
  if lvl = "高" then 1 else if lvl = "中" then 2 else if lvl = "低" then 3 else 99

/-- Lexicographic `≤` on character lists by code point — Python's string
comparison. -/
def charListLe : List Char → List Char → Bool
  | [], _ => true
  | _ :: _, [] => false
  | a :: as, b :: bs =>
    if a.toNat < b.toNat then true
    else if b.toNat < a.toNat then false
    else charListLe as bs

/-- Python string `≤`. -/
def pyStrLe (a b : String) : Bool :=
  charListLe a.data b.data

/-- The sort key of `_generate_audit_summary`:
`(risk_priority.get(风险等级, 99), 风险类型)`. -/
def sortKey (f : Finding) : Nat × String :=
  (riskPriority f.riskLevel, f.riskType)

/-- `≤` on findings under the sort key (severity rank, then risk type). -/
def findingLe (a b : Finding) : Bool :=
  if riskPriority a.riskLevel < riskPriority b.riskLevel then true
  else if riskPriority b.riskLevel < riskPriority a.riskLevel then false
  else pyStrLe a.riskType b.riskType

/-- `_generate_audit_summary`: emit the sensitive-data and privilege
findings, then stable-sort them by severity rank and risk type (Python's
`list.sort` is stable; `List.mergeSort` is its stable model). -/
def generate_audit_summary (users : List UserRecord)
    (dbinfo : List (String × List TableRecord)) : List Finding :=
  (auditEmission users dbinfo).mergeSort findingLe

/-- Drop the malformed patterns of a rule (those `re` raises on). -/
def validPatterns (rc : RuleConfig) : RuleConfig :=
  { rc with regex_patterns := rc.regex_patterns.filter (fun p => p.sem.isSome) }

/-- Drop everything `confirm_sensitive_data` skips from its rule input:
malformed patterns. -/
def cleanseCfg (cfg : RulesConfig) : RulesConfig :=
  { cfg with sensitive_rules := cfg.sensitive_rules.map (fun r => (r.1, validPatterns r.2)) }

/-- A field entry `confirm_sensitive_data` actually examines: a dict with a
non-null value. -/
def liveEntry : String × FieldEntry → Bool
  | (_, .dict (some _) _ _) => true
  | _ => false

/-- Drop everything `confirm_sensitive_data` skips from its detection input:
categories absent from the rules, non-dict entries, and null values. -/
def cleanseInfo (cfg : RulesConfig) (si : SensAny) : SensAny :=
  (si.filter (fun e => (dictGet e.1 cfg.sensitive_rules).isSome)).map
    (fun e => (e.1, e.2.filter liveEntry))

end DbAudit

deriving instance DecidableEq for Except

namespace DbAudit

theorem dictGet_dictSet_self (k : String) (v : β) (d : List (String × β)) :
    dictGet k (dictSet k v d) = some v := by
  induction d with
  | nil => simp [dictGet, dictSet]
  | cons hd tl ih =>
    obtain ⟨k', v'⟩ := hd
    by_cases h : k' = k <;> simp [dictGet, dictSet, h, ih]

theorem dictGet_dictSet_ne (k k' : String) (v : β) (d : List (String × β))
    (h : k' ≠ k) : dictGet k' (dictSet k v d) = dictGet k' d := by
  induction d with
  | nil => simp [dictGet, dictSet, Ne.symm h]
  | cons hd tl ih =>
    obtain ⟨k₀, v₀⟩ := hd
    by_cases h0 : k₀ = k
    · subst h0
      simp [dictGet, dictSet, Ne.symm h]
    · simp [dictGet, dictSet, h0, ih]

theorem matchAnyPattern_eq_true_iff (patterns : List Pattern) (sv : String) :
    matchAnyPattern patterns sv = true ↔
      ∃ p, p ∈ patterns ∧ ∃ m, p.sem = some m ∧ m sv = true := by
  induction patterns with
  | nil => simp [matchAnyPattern]
  | cons p rest ih =>
    cases hsem : p.sem with
    | none =>
      simp only [matchAnyPattern, hsem, ih]
      constructor
      · rintro ⟨q, hq, hm⟩
        exact ⟨q, List.mem_cons_of_mem _ hq, hm⟩
      · rintro ⟨q, hq, m, hqm, hm⟩
        rcases List.mem_cons.mp hq with h | h
        · subst h
          simp [hsem] at hqm
        · exact ⟨q, h, m, hqm, hm⟩
    | some m =>
      cases hval : m sv with
      | true =>
        constructor
        · intro _
          exact ⟨p, List.mem_cons_self p rest, m, hsem, hval⟩
        · intro _
          simp [matchAnyPattern, hsem, hval]
      | false =>
        have hstep : matchAnyPattern (p :: rest) sv = matchAnyPattern rest sv := by
          simp [matchAnyPattern, hsem, hval]
        rw [hstep, ih]
        constructor
        · rintro ⟨q, hq, hqm⟩
          exact ⟨q, List.mem_cons_of_mem _ hq, hqm⟩
        · rintro ⟨q, hq, m', hqm, hm'⟩
          rcases List.mem_cons.mp hq with h | h
          · subst h
            rw [hsem] at hqm
            injection hqm with hmm
            subst hmm
            rw [hval] at hm'
            cases hm'
          · exact ⟨q, h, m', hqm, hm'⟩

theorem confirmFields_eq_true_iff (patterns : List Pattern)
    (fields : List (String × FieldEntry)) :
    confirmFields patterns fields = true ↔
      ∃ fn v fm vm, (fn, FieldEntry.dict (some v) fm vm) ∈ fields ∧
        matchAnyPattern patterns (pyStrip (pyStr v)) = true := by
  induction fields with
  | nil => simp [confirmFields]
  | cons e rest ih =>
    obtain ⟨fn₀, fi₀⟩ := e
    cases fi₀ with
    | nondict =>
      simp only [confirmFields, ih]
      constructor
      · rintro ⟨fn, v, fm, vm, hmem, hmatch⟩
        exact ⟨fn, v, fm, vm, List.mem_cons_of_mem _ hmem, hmatch⟩
      · rintro ⟨fn, v, fm, vm, hmem, hmatch⟩
        rcases List.mem_cons.mp hmem with h | h
        · cases h
        · exact ⟨fn, v, fm, vm, h, hmatch⟩
    | dict val fm₀ vm₀ =>
      cases val with
      | none =>
        simp only [confirmFields, ih]
        constructor
        · rintro ⟨fn, v, fm, vm, hmem, hmatch⟩
          exact ⟨fn, v, fm, vm, List.mem_cons_of_mem _ hmem, hmatch⟩
        · rintro ⟨fn, v, fm, vm, hmem, hmatch⟩
          rcases List.mem_cons.mp hmem with h | h
          · cases h
          · exact ⟨fn, v, fm, vm, h, hmatch⟩
      | some v₀ =>
        cases hmatch : matchAnyPattern patterns (pyStrip (pyStr v₀)) with
        | true =>
          constructor
          · intro _
            exact ⟨fn₀, v₀, fm₀, vm₀, List.mem_cons_self _ _, hmatch⟩
          · intro _
            simp [confirmFields, hmatch]
        | false =>
          have hstep : confirmFields patterns ((fn₀, FieldEntry.dict (some v₀) fm₀ vm₀) :: rest)
              = confirmFields patterns rest := by
            simp [confirmFields, hmatch]
          rw [hstep, ih]
          constructor
          · rintro ⟨fn, v, fm, vm, hmem, hm⟩
            exact ⟨fn, v, fm, vm, List.mem_cons_of_mem _ hmem, hm⟩
          · rintro ⟨fn, v, fm, vm, hmem, hm⟩
            rcases List.mem_cons.mp hmem with h | h
            · injection h with h1 h2
              injection h2 with hv hfm hvm
              cases hv
              rw [hmatch] at hm
              cases hm
            · exact ⟨fn, v, fm, vm, h, hm⟩

theorem confirmCats_eq_true_iff (rules : List (String × RuleConfig)) (si : SensAny) :
    confirmCats rules si = true ↔
      ∃ rn fields, (rn, fields) ∈ si ∧
        ∃ rc, dictGet rn rules = some rc ∧
          confirmFields rc.regex_patterns fields = true := by
  induction si with
  | nil => simp [confirmCats]
  | cons e rest ih =>
    obtain ⟨rn₀, fields₀⟩ := e
    cases hget : dictGet rn₀ rules with
    | none =>
      simp only [confirmCats, hget, ih]
      constructor
      · rintro ⟨rn, fields, hmem, hrest⟩
        exact ⟨rn, fields, List.mem_cons_of_mem _ hmem, hrest⟩
      · rintro ⟨rn, fields, hmem, rc, hrc, hcf⟩
        rcases List.mem_cons.mp hmem with h | h
        · injection h with h1 h2
          subst h1
          subst h2
          rw [hget] at hrc
          cases hrc
        · exact ⟨rn, fields, h, rc, hrc, hcf⟩
    | some rc₀ =>
      cases hcf : confirmFields rc₀.regex_patterns fields₀ with
      | true =>
        constructor
        · intro _
          exact ⟨rn₀, fields₀, List.mem_cons_self _ _, rc₀, hget, hcf⟩
        · intro _
          simp [confirmCats, hget, hcf]
      | false =>
        have hstep : confirmCats rules ((rn₀, fields₀) :: rest) = confirmCats rules rest := by
          simp [confirmCats, hget, hcf]
        rw [hstep, ih]
        constructor
        · rintro ⟨rn, fields, hmem, hrest⟩
          exact ⟨rn, fields, List.mem_cons_of_mem _ hmem, hrest⟩
        · rintro ⟨rn, fields, hmem, rc, hrc, hcf'⟩
          rcases List.mem_cons.mp hmem with h | h
          · injection h with h1 h2
            subst h1
            subst h2
            rw [hget] at hrc
            cases hrc
            rw [hcf] at hcf'
            cases hcf'
          · exact ⟨rn, fields, h, rc, hrc, hcf'⟩

theorem confirm_eq_ite (cfg : RulesConfig) (si : SensAny) :
    confirm_sensitive_data cfg si =
      if confirmCats cfg.sensitive_rules si then "是" else "否" := by
  cases si with
  | nil => simp [confirm_sensitive_data, confirmCats]
  | cons e rest => simp [confirm_sensitive_data]

theorem confirm_eq_yes_iff (cfg : RulesConfig) (si : SensAny) :
    confirm_sensitive_data cfg si = "是" ↔ confirmCats cfg.sensitive_rules si = true := by
  rw [confirm_eq_ite]
  cases h : confirmCats cfg.sensitive_rules si with
  | true => simp
  | false =>
    simp only [Bool.false_eq_true, if_false]
    constructor
    · intro hcontra
      exact absurd hcontra (by decide)
    · intro hcontra
      cases hcontra

theorem confirm_not_yes_eq_no (cfg : RulesConfig) (si : SensAny)
    (h : confirm_sensitive_data cfg si ≠ "是") :
    confirm_sensitive_data cfg si = "否" := by
  rw [confirm_eq_ite] at h ⊢
  cases hc : confirmCats cfg.sensitive_rules si with
  | true =>
    rw [hc] at h
    simp at h
  | false => simp

theorem dictGet_map_snd (f : RuleConfig → RuleConfig) (k : String)
    (rules : List (String × RuleConfig)) :
    dictGet k (rules.map (fun r => (r.1, f r.2))) = (dictGet k rules).map f := by
  induction rules with
  | nil => simp [dictGet]
  | cons hd tl ih =>
    obtain ⟨k₀, rc₀⟩ := hd
    by_cases h : k₀ = k <;> simp [dictGet, h, ih]

/-- C1 (amended): `confirm_sensitive_data` answers `"是"` exactly when some
detected category present in the loaded rules holds a dict entry whose
non-null value, stringified and stripped, re-matches one of that category's
well-formed patterns (start-anchored). The stored `value_match` boolean plays
no role: a field-name-only match (stored value not re-matching) never
confirms, but a re-matching stored value confirms even when `value_match`
was recorded as false. -/
theorem confirm_yes_iff_revalidation (cfg : RulesConfig) (si : SensAny) :
    confirm_sensitive_data cfg si = "是" ↔
      ∃ rn fields, (rn, fields) ∈ si ∧
        ∃ rc, dictGet rn cfg.sensitive_rules = some rc ∧
          ∃ fn v fm vm, (fn, FieldEntry.dict (some v) fm vm) ∈ fields ∧
            ∃ p, p ∈ rc.regex_patterns ∧ ∃ m, p.sem = some m ∧
              m (pyStrip (pyStr v)) = true := by
  rw [confirm_eq_yes_iff, confirmCats_eq_true_iff]
  simp only [confirmFields_eq_true_iff, matchAnyPattern_eq_true_iff]

/-- C1 counterexample: a detection result whose only Column Match has the
stored `value_match` boolean false is nevertheless confirmed, because the
stored value re-matches the category pattern — confirmation does not require
the stored `value_match` to have been true. -/
theorem confirm_yes_with_stored_value_match_false :
    confirm_sensitive_data default_rules
      [("手机号", [("phone", FieldEntry.dict (some (PyVal.vStr "13812345678")) true false)])]
      = "是" := by decide

/-- C10: `confirm_sensitive_data` is total — on every mapping-shaped input it
returns `"是"` or `"否"` — and its verdict is unchanged by deleting
everything it skips: categories absent from the loaded rules, non-dict
per-column entries, null values, and malformed patterns. -/
theorem confirm_total_and_skips_inert (cfg : RulesConfig) (si : SensAny) :
    (confirm_sensitive_data cfg si = "是" ∨ confirm_sensitive_data cfg si = "否")
    ∧ confirm_sensitive_data (cleanseCfg cfg) (cleanseInfo cfg si)
      = confirm_sensitive_data cfg si := by
  have htot : ∀ (cfg' : RulesConfig) (si' : SensAny),
      confirm_sensitive_data cfg' si' = "是" ∨ confirm_sensitive_data cfg' si' = "否" := by
    intro cfg' si'
    rw [confirm_eq_ite]
    cases confirmCats cfg'.sensitive_rules si' <;> simp
  refine ⟨htot cfg si, ?_⟩
  have hiff : confirm_sensitive_data (cleanseCfg cfg) (cleanseInfo cfg si) = "是"
      ↔ confirm_sensitive_data cfg si = "是" := by
    rw [confirm_eq_yes_iff, confirm_eq_yes_iff, confirmCats_eq_true_iff,
      confirmCats_eq_true_iff]
    simp only [confirmFields_eq_true_iff, matchAnyPattern_eq_true_iff]
    constructor
    · rintro ⟨rn, fields, hmem, rc, hrc, fn, v, fm, vm, hfmem, p, hp, m, hpm, hm⟩
      obtain ⟨e, hef, heq⟩ := List.mem_map.mp hmem
      obtain ⟨he, -⟩ := List.mem_filter.mp hef
      obtain ⟨e1, e2⟩ := e
      injection heq with heq1 heq2
      subst heq1
      subst heq2
      simp only [cleanseCfg, dictGet_map_snd, Option.map_eq_some'] at hrc
      obtain ⟨rc₀, hrc₀, hvp⟩ := hrc
      subst hvp
      simp only [validPatterns, List.mem_filter] at hp
      exact ⟨e1, e2, he, rc₀, hrc₀, fn, v, fm, vm,
        (List.mem_filter.mp hfmem).1, p, hp.1, m, hpm, hm⟩
    · rintro ⟨rn, fields, hmem, rc, hrc, fn, v, fm, vm, hfmem, p, hp, m, hpm, hm⟩
      refine ⟨rn, fields.filter liveEntry, ?_, validPatterns rc, ?_, fn, v, fm, vm, ?_,
        p, ?_, m, hpm, hm⟩
      · exact List.mem_map.mpr ⟨(rn, fields),
          List.mem_filter.mpr ⟨hmem, by simp [hrc]⟩, rfl⟩
      · simp [cleanseCfg, dictGet_map_snd, hrc]
      · exact List.mem_filter.mpr ⟨hfmem, by simp [liveEntry]⟩
      · simp only [validPatterns, List.mem_filter]
        exact ⟨hp, by simp [hpm]⟩
  by_cases horig : confirm_sensitive_data cfg si = "是"
  · rw [horig, hiff.mpr horig]
  · rw [confirm_not_yes_eq_no cfg si horig,
      confirm_not_yes_eq_no (cleanseCfg cfg) (cleanseInfo cfg si)
        (fun hh => horig (hiff.mp hh))]

theorem lookupMatch_nil (rn col : String) : lookupMatch ([] : SensInfo) rn col = none := rfl

theorem lookupMatch_recordMatch (rn' col' : String) (mi : MatchInfo) (si : SensInfo)
    (rn col : String) :
    lookupMatch (recordMatch rn' col' mi si) rn col =
      if rn' = rn ∧ col' = col then some mi else lookupMatch si rn col := by
  unfold lookupMatch recordMatch
  by_cases h1 : rn' = rn
  · subst h1
    rw [dictGet_dictSet_self]
    simp only [Option.getD_some]
    by_cases h2 : col' = col
    · subst h2
      rw [dictGet_dictSet_self]
      simp
    · rw [dictGet_dictSet_ne _ _ _ _ (Ne.symm h2)]
      simp [h2]
  · rw [dictGet_dictSet_ne _ _ _ _ (Ne.symm h1)]
    simp [h1]

theorem lookupMatch_processRule_ne (st : Settings) (c : String) (v : PyVal)
    (si : SensInfo) (r : String × RuleConfig) (rn col : String) (hc : c ≠ col) :
    lookupMatch (processRule st c v si r) rn col = lookupMatch si rn col := by
  have hrec : ∀ mi, lookupMatch (recordMatch r.1 c mi si) rn col = lookupMatch si rn col := by
    intro mi
    rw [lookupMatch_recordMatch]
    simp [hc]
  cases v with
  | vNone =>
    simp only [processRule]
    split
    · rfl
    · split
      · apply hrec
      · rfl
  | vStr s =>
    simp only [processRule]
    split
    · rfl
    · split
      · rfl
      · split
        · rfl
        · split
          · apply hrec
          · rfl
  | vInt n =>
    simp only [processRule]
    split
    · rfl
    · split
      · rfl
      · split
        · rfl
        · split
          · apply hrec
          · rfl
  | vBool b =>
    simp only [processRule]
    split
    · rfl
    · split
      · rfl
      · split
        · rfl
        · split
          · apply hrec
          · rfl

theorem processRule_testdata (st : Settings) (col : String) (v : PyVal)
    (si : SensInfo) (r : String × RuleConfig) (hv : v ≠ PyVal.vNone)
    (htd : isTestData st (pyStrip (pyStr v)) = true) :
    processRule st col v si r = si := by
  cases v with
  | vNone => exact absurd rfl hv
  | vStr s =>
    simp only [processRule]
    split
    · rfl
    · simp [htd]
  | vInt n =>
    simp only [processRule]
    split
    · rfl
    · simp [htd]
  | vBool b =>
    simp only [processRule]
    split
    · rfl
    · simp [htd]

theorem lookupMatch_foldl_rules_ne (st : Settings) (c : String) (v : PyVal)
    (rules : List (String × RuleConfig)) (si : SensInfo) (rn col : String) (hc : c ≠ col) :
    lookupMatch (rules.foldl (processRule st c v) si) rn col = lookupMatch si rn col := by
  induction rules generalizing si with
  | nil => rfl
  | cons r rest ih =>
    rw [List.foldl_cons, ih, lookupMatch_processRule_ne st c v si r rn col hc]

theorem foldl_rules_testdata (st : Settings) (col : String) (v : PyVal)
    (rules : List (String × RuleConfig)) (si : SensInfo) (hv : v ≠ PyVal.vNone)
    (htd : isTestData st (pyStrip (pyStr v)) = true) :
    rules.foldl (processRule st col v) si = si := by
  induction rules generalizing si with
  | nil => rfl
  | cons r rest ih =>
    rw [List.foldl_cons, processRule_testdata st col v si r hv htd, ih]

theorem lookupMatch_foldl_pairs (st : Settings) (rules : List (String × RuleConfig))
    (pairs : List (String × PyVal)) (si : SensInfo) (rn col : String)
    (hall : ∀ p ∈ pairs, p.1 ≠ col ∨
      (p.2 ≠ PyVal.vNone ∧ isTestData st (pyStrip (pyStr p.2)) = true)) :
    lookupMatch (pairs.foldl (fun s cv => rules.foldl (processRule st cv.1 cv.2) s) si) rn col
      = lookupMatch si rn col := by
  induction pairs generalizing si with
  | nil => rfl
  | cons p rest ih =>
    rw [List.foldl_cons, ih _ (fun q hq => hall q (List.mem_cons_of_mem _ hq))]
    rcases hall p (List.mem_cons_self _ _) with h | ⟨hv, htd⟩
    · exact lookupMatch_foldl_rules_ne st p.1 p.2 rules si rn col h
    · rw [foldl_rules_testdata st p.1 p.2 rules si hv htd]

theorem zip_value_unique {cols : List String} {rec : List PyVal} {a : String}
    {b c : PyVal} (hnd : cols.Nodup) (hb : (a, b) ∈ cols.zip rec)
    (hc : (a, c) ∈ cols.zip rec) : b = c := by
  induction cols generalizing rec with
  | nil => simp [List.zip] at hb
  | cons x xs ih =>
    cases rec with
    | nil => simp [List.zip] at hb
    | cons r rs =>
      rcases List.mem_cons.mp hb with h | h <;> rcases List.mem_cons.mp hc with h' | h'
      · injection h with h1 h2
        injection h' with h1' h2'
        rw [h2, h2']
      · injection h with h1 h2
        subst h1
        exact absurd (List.of_mem_zip h').1 (List.nodup_cons.mp hnd).1
      · injection h' with h1' h2'
        subst h1'
        exact absurd (List.of_mem_zip h).1 (List.nodup_cons.mp hnd).1
      · exact ih (List.nodup_cons.mp hnd).2 h h'

theorem lookupMatch_processRule_vNone (st : Settings) (col : String) (si : SensInfo)
    (r : String × RuleConfig) (rn : String) :
    lookupMatch (processRule st col PyVal.vNone si r) rn col =
      if r.1 = rn ∧ r.1 ∈ st.enabled_rules ∧
          fieldMatches st.case_sensitive r.2.field_keywords col = true
      then some ⟨none, true, false⟩ else lookupMatch si rn col := by
  simp only [processRule]
  split
  · rename_i h
    simp only [Bool.not_eq_true'] at h
    rw [if_neg]
    rintro ⟨-, hc, -⟩
    rw [List.contains_eq_any_beq] at h
    have : st.enabled_rules.any (fun x => r.1 == x) = true :=
      List.any_eq_true.mpr ⟨r.1, hc, by simp⟩
    rw [this] at h
    cases h
  · rename_i h
    have hct : r.1 ∈ st.enabled_rules := by
      cases hcb : st.enabled_rules.contains r.1 with
      | true =>
        rw [List.contains_eq_any_beq] at hcb
        obtain ⟨x, hx, hbeq⟩ := List.any_eq_true.mp hcb
        rw [beq_iff_eq] at hbeq
        exact hbeq ▸ hx
      | false => rw [hcb] at h; simp at h
    split
    · rename_i hfm
      rw [lookupMatch_recordMatch]
      by_cases hrn : r.1 = rn
      · simp [hrn, hrn ▸ hct, hfm]
      · simp [hrn]
    · rename_i hfm
      rw [if_neg]
      rintro ⟨-, -, hf⟩
      exact hfm hf

theorem lookupMatch_foldl_rules_vNone (st : Settings) (col rn : String)
    (rules : List (String × RuleConfig)) (si : SensInfo) :
    lookupMatch (rules.foldl (processRule st col PyVal.vNone) si) rn col =
      if ∃ r ∈ rules, r.1 = rn ∧ r.1 ∈ st.enabled_rules ∧
          fieldMatches st.case_sensitive r.2.field_keywords col = true
      then some ⟨none, true, false⟩ else lookupMatch si rn col := by
  induction rules generalizing si with
  | nil => simp
  | cons r rest ih =>
    rw [List.foldl_cons, ih]
    by_cases hrest : ∃ q ∈ rest, q.1 = rn ∧ q.1 ∈ st.enabled_rules ∧
        fieldMatches st.case_sensitive q.2.field_keywords col = true
    · simp [hrest, List.mem_cons, exists_eq_or_imp]
    · rw [lookupMatch_processRule_vNone]
      by_cases hr : r.1 = rn ∧ r.1 ∈ st.enabled_rules ∧
          fieldMatches st.case_sensitive r.2.field_keywords col = true
      · simp [hrest, hr, List.mem_cons, exists_eq_or_imp]
      · simp [hrest, hr, List.mem_cons, exists_eq_or_imp]

/-- C9: a null sampled value under a column whose name matches a keyword of
an enabled category is always recorded as a Column Match with displayed
value null, `field_match` true and `value_match` false — the test-data and
maximum-length rejections never touch null values, whatever the settings. -/
theorem classify_null_field_match (cfg : RulesConfig) (columns : List String)
    (record : List PyVal) (col rn : String) (rc : RuleConfig)
    (hnodup : columns.Nodup) (hlen : record.length = columns.length)
    (hmem : (col, PyVal.vNone) ∈ columns.zip record)
    (hrc : (rn, rc) ∈ cfg.sensitive_rules)
    (hen : rn ∈ cfg.settings.enabled_rules)
    (hfm : fieldMatches cfg.settings.case_sensitive rc.field_keywords col = true) :
    lookupMatch (identify_sensitive_info cfg columns record) rn col =
      some ⟨none, true, false⟩ := by
  have hne : record ≠ [] := List.ne_nil_of_mem (List.of_mem_zip hmem).2
  obtain ⟨A, B, hAB⟩ := List.append_of_mem hmem
  have hmapfst : (columns.zip record).map Prod.fst = columns :=
    List.map_fst_zip columns record (le_of_eq hlen.symm)
  have hnd2 : ((columns.zip record).map Prod.fst).Nodup := by
    rw [hmapfst]
    exact hnodup
  rw [hAB] at hnd2
  rw [List.map_append, List.map_cons] at hnd2
  have hnd3 := List.perm_middle.nodup hnd2
  have hcolB : col ∉ B.map Prod.fst := by
    intro hcB
    exact (List.nodup_cons.mp hnd3).1 (List.mem_append.mpr (Or.inr hcB))
  unfold identify_sensitive_info
  rw [if_neg (by simp [hne, hlen])]
  rw [hAB, List.foldl_append, List.foldl_cons]
  rw [lookupMatch_foldl_pairs _ _ B _ rn col
    (fun p hp => Or.inl (fun hpc => hcolB (hpc ▸ List.mem_map_of_mem Prod.fst hp)))]
  rw [lookupMatch_foldl_rules_vNone]
  rw [if_pos ⟨(rn, rc), hrc, rfl, hen, hfm⟩]

/-- C9 witness: a null value in a column named `phone` is recorded for the
default phone category with displayed value null, field match true and value
match false. -/
theorem classify_null_field_match_witness :
    lookupMatch (identify_sensitive_info default_rules ["phone"] [PyVal.vNone])
      "手机号" "phone" = some ⟨none, true, false⟩ :=
  classify_null_field_match default_rules ["phone"] [PyVal.vNone] "phone" "手机号"
    { field_keywords := ["phone", "mobile", "telephone"]
      regex_patterns := [{ source := "^1[3-9]\\d{9}$", sem := some isChineseMobile }]
      description := "中国手机号" }
    (by decide) (by decide) (by decide) (List.mem_cons_self _ _) (by decide) (by decide)

/-- C5: `identify_sensitive_info` returns the empty mapping whenever the
record is empty or its length differs from the column list — no partial
matching of an aligned prefix happens. -/
theorem classify_length_mismatch_empty (cfg : RulesConfig) (columns : List String)
    (record : List PyVal) (h : record = [] ∨ record.length ≠ columns.length) :
    identify_sensitive_info cfg columns record = [] := by
  unfold identify_sensitive_info
  rcases h with h | h
  · subst h
    simp
  · simp [h]

/-- C5 witness: an empty record against a nonempty column list classifies to
the empty mapping. -/
theorem classify_length_mismatch_empty_witness :
    identify_sensitive_info default_rules ["id", "phone"] [] = [] :=
  classify_length_mismatch_empty default_rules ["id", "phone"] [] (Or.inl rfl)

/-- C3: when test-data exclusion applies — the value is non-null and its
stripped stringified form contains a configured marker case-insensitively —
`identify_sensitive_info` records no Column Match at all for that column,
under any category, even one whose keywords occur in the column name. -/
theorem classify_excludes_test_data (cfg : RulesConfig) (columns : List String)
    (record : List PyVal) (col : String) (v : PyVal) (rn : String)
    (hnodup : columns.Nodup) (hmem : (col, v) ∈ columns.zip record)
    (hv : v ≠ PyVal.vNone)
    (htd : isTestData cfg.settings (pyStrip (pyStr v)) = true) :
    lookupMatch (identify_sensitive_info cfg columns record) rn col = none := by
  unfold identify_sensitive_info
  split
  · exact lookupMatch_nil rn col
  · rw [lookupMatch_foldl_pairs]
    · exact lookupMatch_nil rn col
    · intro p hp
      by_cases hpc : p.1 = col
      · right
        obtain ⟨p1, p2⟩ := p
        simp only at hpc
        subst hpc
        rw [zip_value_unique hnodup hp hmem]
        exact ⟨hv, htd⟩
      · exact Or.inl hpc

/-- C3 witness: a `phone` column whose value contains the marker `test` is
recorded under no category at all. -/
theorem classify_excludes_test_data_witness :
    lookupMatch (identify_sensitive_info default_rules ["phone"]
      [PyVal.vStr "test13812345678"]) "手机号" "phone" = none :=
  classify_excludes_test_data default_rules ["phone"] [PyVal.vStr "test13812345678"]
    "phone" (PyVal.vStr "test13812345678") "手机号"
    (by decide) (by decide) (by decide) (by decide)

theorem pyTruncate_length_le (cap : Nat) (s : String) :
    (pyTruncate cap s).length ≤ cap + 3 := by
  unfold pyTruncate
  split
  · rename_i h
    rw [String.length_append]
    have h1 : (String.mk (s.data.take cap)).length = (s.data.take cap).length := rfl
    have h2 : ("..." : String).length = 3 := rfl
    rw [h1, h2, List.length_take]
    have := Nat.min_le_left cap s.data.length
    omega
  · rename_i h
    rw [Nat.not_lt] at h
    omega

theorem foldl_preserve {α β : Type} (f : β → α → β) (P : β → Prop)
    (hf : ∀ b a, P b → P (f b a)) : ∀ (l : List α) (b : β), P b → P (l.foldl f b) := by
  intro l
  induction l with
  | nil => intro b hb; exact hb
  | cons a l ih => intro b hb; exact ih (f b a) (hf b a hb)

theorem processRule_value_bound (st : Settings) (c : String) (v : PyVal)
    (si : SensInfo) (r : String × RuleConfig)
    (hsi : ∀ rn col mi s, lookupMatch si rn col = some mi → mi.value = some s →
      s.length ≤ 53) :
    ∀ rn col mi s, lookupMatch (processRule st c v si r) rn col = some mi →
      mi.value = some s → s.length ≤ 53 := by
  intro rn col mi s hlook hval
  have hrm : ∀ (mi₀ : MatchInfo), (∀ s₀, mi₀.value = some s₀ → s₀.length ≤ 53) →
      lookupMatch (recordMatch r.1 c mi₀ si) rn col = some mi → s.length ≤ 53 := by
    intro mi₀ hmi₀ hl
    rw [lookupMatch_recordMatch] at hl
    split at hl
    · cases hl
      exact hmi₀ s hval
    · exact hsi rn col mi s hl hval
  cases v with
  | vNone =>
    simp only [processRule] at hlook
    split at hlook
    · exact hsi rn col mi s hlook hval
    · split at hlook
      · refine hrm _ ?_ hlook
        intro s₀ h
        cases h
      · exact hsi rn col mi s hlook hval
  | vStr sv =>
    simp only [processRule] at hlook
    split at hlook
    · exact hsi rn col mi s hlook hval
    · split at hlook
      · exact hsi rn col mi s hlook hval
      · split at hlook
        · exact hsi rn col mi s hlook hval
        · split at hlook
          · refine hrm _ ?_ hlook
            intro s₀ h
            injection h with h
            subst h
            exact le_trans (pyTruncate_length_le 50 _) (by omega)
          · exact hsi rn col mi s hlook hval
  | vInt n =>
    simp only [processRule] at hlook
    split at hlook
    · exact hsi rn col mi s hlook hval
    · split at hlook
      · exact hsi rn col mi s hlook hval
      · split at hlook
        · exact hsi rn col mi s hlook hval
        · split at hlook
          · refine hrm _ ?_ hlook
            intro s₀ h
            injection h with h
            subst h
            exact le_trans (pyTruncate_length_le 50 _) (by omega)
          · exact hsi rn col mi s hlook hval
  | vBool b =>
    simp only [processRule] at hlook
    split at hlook
    · exact hsi rn col mi s hlook hval
    · split at hlook
      · exact hsi rn col mi s hlook hval
      · split at hlook
        · exact hsi rn col mi s hlook hval
        · split at hlook
          · refine hrm _ ?_ hlook
            intro s₀ h
            injection h with h
            subst h
            exact le_trans (pyTruncate_length_le 50 _) (by omega)
          · exact hsi rn col mi s hlook hval

/-- C2 (amended): a displayed Column Match value never exceeds 53 characters
(a value of at most 50 characters is kept whole, a longer one is cut to 50
and gains the 3-character ellipsis `...`), and a stringified per-column
display form in a table row never exceeds 103 characters (100 plus the
ellipsis). The bare caps of 50 and 100 hold only for untruncated values. -/
theorem display_value_caps :
    (∀ (cfg : RulesConfig) (columns : List String) (record : List PyVal)
        (rn col : String) (mi : MatchInfo) (s : String),
        lookupMatch (identify_sensitive_info cfg columns record) rn col = some mi →
        mi.value = some s → s.length ≤ 53)
    ∧ (∀ (v : PyVal) (s : String), columnDisplay v = DisplayCell.dStr s →
        s.length ≤ 103) := by
  constructor
  · intro cfg columns record rn col mi s hlook hval
    unfold identify_sensitive_info at hlook
    split at hlook
    · rw [lookupMatch_nil] at hlook
      cases hlook
    · refine foldl_preserve _
        (fun si => ∀ rn col mi s, lookupMatch si rn col = some mi →
          mi.value = some s → s.length ≤ 53) ?_ (columns.zip record) [] ?_
        rn col mi s hlook hval
      · intro si cv hP
        exact foldl_preserve _ _
          (fun si' r hP' => processRule_value_bound cfg.settings cv.1 cv.2 si' r hP')
          cfg.sensitive_rules si hP
      · intro rn' col' mi' s' h
        rw [lookupMatch_nil] at h
        cases h
  · intro v s h
    cases v with
    | vNone => simp [columnDisplay] at h
    | vInt n => simp [columnDisplay] at h
    | vBool b => simp [columnDisplay] at h
    | vStr s₀ =>
      simp only [columnDisplay, DisplayCell.dStr.injEq] at h
      exact h ▸ pyTruncate_length_le 100 s₀

/-- C2 counterexample: the stated caps of 50 and 100 characters are exceeded
— a 51-character value is stored in the Column Match as a 53-character
display value (50 kept characters plus the ellipsis `...`), and a
101-character value is displayed in the table row as a 103-character
string. -/
theorem display_value_cap_exceeded :
    lookupMatch (identify_sensitive_info default_rules ["phone"]
        [PyVal.vStr ⟨List.replicate 51 'a'⟩]) "手机号" "phone"
      = some ⟨some (String.mk (List.replicate 50 'a') ++ "..."), true, false⟩
    ∧ (String.mk (List.replicate 50 'a') ++ "...").length = 53
    ∧ columnDisplay (PyVal.vStr ⟨List.replicate 101 'b'⟩)
      = DisplayCell.dStr (String.mk (List.replicate 100 'b') ++ "...")
    ∧ (String.mk (List.replicate 100 'b') ++ "...").length = 103 :=
  ⟨by decide, by decide, by decide, by decide⟩

/-- C2 witness: the amended caps evaluated at the truncating inputs. -/
theorem display_value_caps_witness :
    (String.mk (List.replicate 50 'a') ++ "...").length ≤ 53
    ∧ (String.mk (List.replicate 100 'b') ++ "...").length ≤ 103 :=
  ⟨display_value_caps.1 default_rules ["phone"] [PyVal.vStr ⟨List.replicate 51 'a'⟩]
      "手机号" "phone" ⟨some (String.mk (List.replicate 50 'a') ++ "..."), true, false⟩
      (String.mk (List.replicate 50 'a') ++ "...") (by decide) rfl,
   display_value_caps.2 (PyVal.vStr ⟨List.replicate 101 'b'⟩)
      (String.mk (List.replicate 100 'b') ++ "...") (by decide)⟩

theorem exceptMap_isOk (f : List Datasource → List Datasource)
    (e : Except String (List Datasource)) : (e.map f).isOk = e.isOk := by
  cases e <;> rfl

theorem goodLine_eq_false (line : String)
    (h1 : ¬(pyStrip line == "" || pyStartsWith (pyStrip line) "#") = true)
    (h2 : 5 ≤ ((pySplit ',' (pyStrip line)).map pyStrip).length)
    (hint : pyInt (((pySplit ',' (pyStrip line)).map pyStrip).getD 2 "") = none) :
    goodLine line = false := by
  have ha : (pyStrip line == "") = false := by
    cases hx : (pyStrip line == "") with
    | true => exact absurd (by rw [hx]; rfl) h1
    | false => rfl
  have hb : pyStartsWith (pyStrip line) "#" = false := by
    cases hx : pyStartsWith (pyStrip line) "#" with
    | true => exact absurd (by simp [hx]) h1
    | false => rfl
  have hc : decide (((pySplit ',' (pyStrip line)).map pyStrip).length < 5) = false := by
    simp only [decide_eq_false_iff_not]
    omega
  simp only [goodLine]
  rw [hint, ha, hb, hc]
  rfl

theorem parseLines_ok_iff (ls : List String) :
    (parseLines ls).isOk = true ↔ ∀ l ∈ ls, goodLine l = true := by
  induction ls with
  | nil => simp [parseLines, Except.isOk, Except.toBool]
  | cons line rest ih =>
    by_cases h1 : (pyStrip line == "" || pyStartsWith (pyStrip line) "#") = true
    · have hstep : parseLines (line :: rest) = parseLines rest := by
        simp only [parseLines]
        rw [if_pos h1]
      have hgood : goodLine line = true := by
        simp only [goodLine]
        rw [h1]
        rfl
      rw [hstep, ih]
      simp [hgood]
    · by_cases h2 : 5 ≤ ((pySplit ',' (pyStrip line)).map pyStrip).length
      · cases hint : pyInt (((pySplit ',' (pyStrip line)).map pyStrip).getD 2 "") with
        | some p =>
          have hstep : (parseLines (line :: rest)).isOk = (parseLines rest).isOk := by
            simp only [parseLines]
            rw [if_neg (by simp [h1]), if_pos h2, hint]
            exact exceptMap_isOk _ _
          have hgood : goodLine line = true := by
            simp only [goodLine]
            rw [hint]
            simp
          rw [hstep, ih]
          simp [hgood]
        | none =>
          have hstep : parseLines (line :: rest)
              = .error ("invalid literal for int() with base 10: "
                  ++ ((pySplit ',' (pyStrip line)).map pyStrip).getD 2 "") := by
            simp only [parseLines]
            rw [if_neg (by simp [h1]), if_pos h2, hint]
          have hgood : goodLine line = false := goodLine_eq_false line h1 h2 hint
          rw [hstep]
          constructor
          · intro hcontra
            cases hcontra
          · intro hall
            have := hall line (List.mem_cons_self _ _)
            rw [hgood] at this
            cases this
      · have hstep : parseLines (line :: rest) = parseLines rest := by
          simp only [parseLines]
          rw [if_neg (by simp [h1]), if_neg h2]
        have hgood : goodLine line = true := by
          simp only [goodLine]
          have : (decide (((pySplit ',' (pyStrip line)).map pyStrip).length < 5)) = true := by
            simp only [decide_eq_true_eq]
            omega
          rw [this]
          simp
        rw [hstep, ih]
        simp [hgood]

theorem parseLines_eq_filterMap (ls : List String)
    (hall : ∀ l ∈ ls, goodLine l = true) :
    parseLines ls = .ok (ls.filterMap parseGoodLine) := by
  induction ls with
  | nil => rfl
  | cons line rest ih =>
    have hrest := ih (fun l hl => hall l (List.mem_cons_of_mem _ hl))
    by_cases h1 : (pyStrip line == "" || pyStartsWith (pyStrip line) "#") = true
    · have hstep : parseLines (line :: rest) = parseLines rest := by
        simp only [parseLines]
        rw [if_pos h1]
      have hskip : parseGoodLine line = none := by
        simp only [parseGoodLine]
        rw [if_pos h1]
      rw [hstep, hrest, List.filterMap_cons, hskip]
    · by_cases h2 : 5 ≤ ((pySplit ',' (pyStrip line)).map pyStrip).length
      · cases hint : pyInt (((pySplit ',' (pyStrip line)).map pyStrip).getD 2 "") with
        | some p =>
          have hstep : parseLines (line :: rest) = (parseLines rest).map
              (fun ds =>
                { datasource_name := ((pySplit ',' (pyStrip line)).map pyStrip).getD 0 ""
                  ip := ((pySplit ',' (pyStrip line)).map pyStrip).getD 1 ""
                  port := p
                  username := ((pySplit ',' (pyStrip line)).map pyStrip).getD 3 ""
                  password := ((pySplit ',' (pyStrip line)).map pyStrip).getD 4 "" } :: ds) := by
            simp only [parseLines]
            rw [if_neg (by simp [h1]), if_pos h2, hint]
          have htake : parseGoodLine line = some
              { datasource_name := ((pySplit ',' (pyStrip line)).map pyStrip).getD 0 ""
                ip := ((pySplit ',' (pyStrip line)).map pyStrip).getD 1 ""
                port := p
                username := ((pySplit ',' (pyStrip line)).map pyStrip).getD 3 ""
                password := ((pySplit ',' (pyStrip line)).map pyStrip).getD 4 "" } := by
            simp only [parseGoodLine]
            rw [if_neg (by simp [h1]), if_pos h2, hint]
          rw [hstep, hrest, List.filterMap_cons, htake]
          rfl
        | none =>
          exfalso
          have hgood := hall line (List.mem_cons_self _ _)
          rw [goodLine_eq_false line h1 h2 hint] at hgood
          cases hgood
      · have hstep : parseLines (line :: rest) = parseLines rest := by
          simp only [parseLines]
          rw [if_neg (by simp [h1]), if_neg h2]
        have hskip : parseGoodLine line = none := by
          simp only [parseGoodLine]
          rw [if_neg (by simp [h1]), if_neg h2]
        rw [hstep, hrest, List.filterMap_cons, hskip]

/-- C4 (amended): parsing succeeds exactly when every line is blank, a `#`
comment, has fewer than 5 comma-separated fields (skipped with a warning),
or has a numeric port field; in that case the parsed datasources are exactly
the contributions of the valid lines in order. A line with at least 5
fields whose port field is not numeric raises `ValueError` (uncaught),
aborting the whole parse — contrary to the claimed never-raising recovery. -/
theorem parse_config_line_discipline (t : String) :
    ((parse_datasource_config t).isOk = true ↔
      ∀ l ∈ configLines t, goodLine l = true)
    ∧ ((∀ l ∈ configLines t, goodLine l = true) →
        parse_datasource_config t = .ok ((configLines t).filterMap parseGoodLine)) :=
  ⟨parseLines_ok_iff (configLines t), fun h => parseLines_eq_filterMap (configLines t) h⟩

/-- C4 witness: a config with a comment, a blank line, a short line and one
valid record parses to exactly that record. -/
theorem parse_config_line_discipline_witness :
    parse_datasource_config "# c\n\ndb1,localhost,3306,root,pw\nbad,line" =
      .ok [{ datasource_name := "db1", ip := "localhost", port := 3306,
             username := "root", password := "pw" }] :=
  ((parse_config_line_discipline "# c\n\ndb1,localhost,3306,root,pw\nbad,line").2
    (by decide)).trans (by decide)

/-- C4 counterexample: a line with 5 fields but a non-numeric port makes
`int(parts[2])` raise `ValueError`, aborting the parse instead of skipping
the line. -/
theorem parse_config_raises_on_bad_port :
    parse_datasource_config "a,b,xyz,c,d"
      = .error "invalid literal for int() with base 10: xyz" := by decide

/-- C8 (amended): rule loading is total — every environment yields a rule
set. An absent rule file falls back to the hard-coded default with a logged
warning; a read/parse failure falls back to the default but logs an error
(not a warning); a parsing file is returned as-is. The default contains the
phone-number category with field keywords phone/mobile/telephone and the
start-and-end-anchored pattern `^1[3-9]\d{9}$`. -/
theorem load_rules_fallback :
    (∀ e, load_sensitive_rules (RulesEnv.readFailure e)
      = (default_rules, [(LogLevel.error, "加载敏感信息规则失败: " ++ e ++ "，使用默认规则")]))
    ∧ load_sensitive_rules RulesEnv.absent
      = (default_rules,
          [(LogLevel.warning, "敏感信息规则文件不存在: config/sensitive_rules.json，使用默认规则")])
    ∧ (∀ cfg, load_sensitive_rules (RulesEnv.parsed cfg) = (cfg, []))
    ∧ dictGet "手机号" default_rules.sensitive_rules
      = some { field_keywords := ["phone", "mobile", "telephone"]
               regex_patterns := [{ source := "^1[3-9]\\d{9}$", sem := some isChineseMobile }]
               description := "中国手机号" }
    ∧ default_rules.settings.enabled_rules = ["手机号"]
    ∧ isChineseMobile "13812345678" = true
    ∧ isChineseMobile "03812345678" = false
    ∧ isChineseMobile "1381234567" = false
    ∧ isChineseMobile "138123456789" = false :=
  ⟨fun e => rfl, rfl, fun cfg => rfl, rfl, rfl, by decide, by decide, by decide, by decide⟩

/-- C8 counterexample: a read/parse failure is logged at error level, not as
the warning the claim states. -/
theorem load_rules_parse_failure_logs_error :
    (load_sensitive_rules (RulesEnv.readFailure "Expecting value")).2.map Prod.fst
      = [LogLevel.error]
    ∧ LogLevel.error ≠ LogLevel.warning :=
  ⟨rfl, by decide⟩

theorem charListLe_refl (l : List Char) : charListLe l l = true := by
  induction l with
  | nil => rfl
  | cons x xs ih => simp [charListLe, Nat.lt_irrefl, ih]

theorem charListLe_total (a b : List Char) : (charListLe a b || charListLe b a) = true := by
  induction a generalizing b with
  | nil => rfl
  | cons x xs ih =>
    cases b with
    | nil => simp [charListLe]
    | cons y ys =>
      by_cases h1 : x.toNat < y.toNat
      · simp [charListLe, h1]
      · by_cases h2 : y.toNat < x.toNat
        · simp [charListLe, h1, h2]
        · simp only [charListLe, if_neg h1, if_neg h2]
          exact ih ys

theorem charListLe_trans (a b c : List Char) (hab : charListLe a b = true)
    (hbc : charListLe b c = true) : charListLe a c = true := by
  induction a generalizing b c with
  | nil => rfl
  | cons x xs ih =>
    cases b with
    | nil => simp [charListLe] at hab
    | cons y ys =>
      cases c with
      | nil => simp [charListLe] at hbc
      | cons z zs =>
        simp only [charListLe] at hab hbc ⊢
        by_cases h1 : x.toNat < y.toNat
        · by_cases h2 : y.toNat < z.toNat
          · rw [if_pos (by omega)]
          · rw [if_neg h2] at hbc
            by_cases h3 : z.toNat < y.toNat
            · rw [if_pos h3] at hbc
              cases hbc
            · rw [if_pos (by omega)]
        · rw [if_neg h1] at hab
          by_cases h4 : y.toNat < x.toNat
          · rw [if_pos h4] at hab
            cases hab
          · rw [if_neg h4] at hab
            by_cases h2 : y.toNat < z.toNat
            · rw [if_pos (by omega)]
            · rw [if_neg h2] at hbc
              by_cases h3 : z.toNat < y.toNat
              · rw [if_pos h3] at hbc
                cases hbc
              · rw [if_neg h3] at hbc
                rw [if_neg (by omega), if_neg (by omega)]
                exact ih ys zs hab hbc

theorem findingLe_total (a b : Finding) : (findingLe a b || findingLe b a) = true := by
  unfold findingLe
  by_cases h1 : riskPriority a.riskLevel < riskPriority b.riskLevel
  · simp [h1]
  · by_cases h2 : riskPriority b.riskLevel < riskPriority a.riskLevel
    · simp [h1, h2]
    · simp only [if_neg h1, if_neg h2]
      exact charListLe_total _ _

theorem findingLe_trans (a b c : Finding) (hab : findingLe a b = true)
    (hbc : findingLe b c = true) : findingLe a c = true := by
  unfold findingLe at hab hbc ⊢
  by_cases h1 : riskPriority a.riskLevel < riskPriority b.riskLevel
  · by_cases h2 : riskPriority b.riskLevel < riskPriority c.riskLevel
    · rw [if_pos (by omega)]
    · rw [if_neg h2] at hbc
      by_cases h3 : riskPriority c.riskLevel < riskPriority b.riskLevel
      · rw [if_pos h3] at hbc
        cases hbc
      · rw [if_pos (by omega)]
  · rw [if_neg h1] at hab
    by_cases h4 : riskPriority b.riskLevel < riskPriority a.riskLevel
    · rw [if_pos h4] at hab
      cases hab
    · rw [if_neg h4] at hab
      by_cases h2 : riskPriority b.riskLevel < riskPriority c.riskLevel
      · rw [if_pos (by omega)]
      · rw [if_neg h2] at hbc
        by_cases h3 : riskPriority c.riskLevel < riskPriority b.riskLevel
        · rw [if_pos h3] at hbc
          cases hbc
        · rw [if_neg h3] at hbc
          rw [if_neg (by omega), if_neg (by omega)]
          exact charListLe_trans _ _ _ hab hbc

theorem findingLe_of_sortKey_eq {a b : Finding} (h : sortKey a = sortKey b) :
    findingLe a b = true := by
  unfold sortKey at h
  injection h with h1 h2
  unfold findingLe
  rw [h1, h2, if_neg (Nat.lt_irrefl _), if_neg (Nat.lt_irrefl _)]
  exact charListLe_refl _

/-- C6: the findings list produced by `_generate_audit_summary` is sorted by
severity rank (高 = 1, 中 = 2, 低 = 3, anything else 99, i.e. last) and then
by risk-type name; it is a permutation of the emitted findings, and the sort
is stable: two findings with equal sort keys keep their relative emission
order. -/
theorem audit_summary_sorted_stable (users : List UserRecord)
    (dbinfo : List (String × List TableRecord)) :
    List.Pairwise (fun a b => findingLe a b = true) (generate_audit_summary users dbinfo)
    ∧ (generate_audit_summary users dbinfo).Perm (auditEmission users dbinfo)
    ∧ ∀ a b : Finding, sortKey a = sortKey b →
        List.Sublist [a, b] (auditEmission users dbinfo) →
        List.Sublist [a, b] (generate_audit_summary users dbinfo) := by
  refine ⟨?_, ?_, ?_⟩
  · exact List.sorted_mergeSort findingLe_trans findingLe_total (auditEmission users dbinfo)
  · exact List.mergeSort_perm (auditEmission users dbinfo) findingLe
  · intro a b hkey hsub
    exact List.pair_sublist_mergeSort findingLe_trans findingLe_total
      (findingLe_of_sortKey_eq hkey) hsub

/-- C6 witness: two equal-key findings (two users each holding only the file
privilege) keep their emission order in the sorted summary. -/
theorem audit_summary_sorted_stable_witness :
    List.Sublist
      [{ riskType := "权限风险", riskLevel := "中", checkItem := "用户权限",
         tableName := "-", fieldName := "-", sensType := "数据库权限",
         riskDesc := "用户 u1@h 拥有高危权限: 文件权限", detectValue := "1个高危权限",
         recordCount := CountCell.cdash,
         suggestion := "根据最小权限原则，移除不必要的高危权限" },
       { riskType := "权限风险", riskLevel := "中", checkItem := "用户权限",
         tableName := "-", fieldName := "-", sensType := "数据库权限",
         riskDesc := "用户 u2@h 拥有高危权限: 文件权限", detectValue := "1个高危权限",
         recordCount := CountCell.cdash,
         suggestion := "根据最小权限原则，移除不必要的高危权限" }]
      (generate_audit_summary
        [[("用户名", "u1"), ("主机", "h"), ("文件权限", "是")],
         [("用户名", "u2"), ("主机", "h"), ("文件权限", "是")]] []) :=
  (audit_summary_sorted_stable
      [[("用户名", "u1"), ("主机", "h"), ("文件权限", "是")],
       [("用户名", "u2"), ("主机", "h"), ("文件权限", "是")]] []).2.2
    _ _ (by decide) (by decide)

theorem contains_eq_true_iff_mem (l : List String) (a : String) :
    l.contains a = true ↔ a ∈ l := by
  rw [List.contains_eq_any_beq, List.any_eq_true]
  constructor
  · rintro ⟨x, hx, hbeq⟩
    rw [beq_iff_eq] at hbeq
    exact hbeq ▸ hx
  · intro h
    exact ⟨a, h, by simp⟩

theorem mem_heldHighRisks (u : UserRecord) (p : String) :
    p ∈ heldHighRisks u ↔ p ∈ high_risk_permissions ∧ dictGet p u = some "是" := by
  unfold heldHighRisks
  rw [List.mem_filter]
  constructor
  · rintro ⟨h1, h2⟩
    rw [beq_iff_eq] at h2
    exact ⟨h1, h2⟩
  · rintro ⟨h1, h2⟩
    exact ⟨h1, by rw [beq_iff_eq]; exact h2⟩

/-- C7: per user-privilege record, the summary emits a database-privilege
finding exactly when the user holds a non-empty subset of the fixed
high-risk privilege list, its severity being 高 exactly when the super
privilege is held and 中 otherwise; independently it emits a 中 wildcard-host
finding exactly when the host is `%` and the user holds any of
select/insert/update/delete; both findings fire together for such a user. -/
theorem user_privilege_findings (u : UserRecord) :
    ((∃ f ∈ userFindings u, f.sensType = "数据库权限") ↔ heldHighRisks u ≠ [])
    ∧ (∀ f ∈ userFindings u, f.sensType = "数据库权限" →
        f.riskLevel = if "超级权限" ∈ heldHighRisks u then "高" else "中")
    ∧ ("超级权限" ∈ heldHighRisks u ↔ dictGet "超级权限" u = some "是")
    ∧ ((∃ f ∈ userFindings u, f.sensType = "主机权限") ↔ wildcardHostRisk u = true)
    ∧ (∀ f ∈ userFindings u, f.sensType = "主机权限" → f.riskLevel = "中")
    ∧ (heldHighRisks u ≠ [] → wildcardHostRisk u = true → (userFindings u).length = 2) := by
  have hsup : "超级权限" ∈ heldHighRisks u ↔ dictGet "超级权限" u = some "是" := by
    rw [mem_heldHighRisks]
    simp [high_risk_permissions]
  have hne1 : ("主机权限" : String) ≠ "数据库权限" := by decide
  have hne2 : ("数据库权限" : String) ≠ "主机权限" := by decide
  have hlevel : (if (heldHighRisks u).contains "超级权限" = true then "高" else "中")
      = (if "超级权限" ∈ heldHighRisks u then "高" else "中") := by
    by_cases h : "超级权限" ∈ heldHighRisks u
    · rw [if_pos h, if_pos ((contains_eq_true_iff_mem _ _).mpr h)]
    · rw [if_neg h, if_neg (fun hc => h ((contains_eq_true_iff_mem _ _).mp hc))]
  by_cases hhr : (heldHighRisks u).isEmpty = true <;>
    by_cases hwc : wildcardHostRisk u = true
  · have hempty : heldHighRisks u = [] := List.isEmpty_iff.mp hhr
    refine ⟨?_, ?_, hsup, ?_, ?_, ?_⟩
    · simp only [userFindings]
      rw [if_pos hhr, if_pos hwc, List.nil_append]
      constructor
      · rintro ⟨f, hf, hs⟩
        rw [List.mem_singleton.mp hf] at hs
        exact absurd hs hne1
      · intro h
        exact absurd hempty h
    · simp only [userFindings]
      rw [if_pos hhr, if_pos hwc, List.nil_append]
      intro f hf hs
      rw [List.mem_singleton.mp hf] at hs
      exact absurd hs hne1
    · simp only [userFindings]
      rw [if_pos hhr, if_pos hwc, List.nil_append]
      exact ⟨fun _ => hwc, fun _ => ⟨_, List.mem_cons_self _ _, rfl⟩⟩
    · simp only [userFindings]
      rw [if_pos hhr, if_pos hwc, List.nil_append]
      intro f hf hs
      rw [List.mem_singleton.mp hf]
    · intro hne _
      exact absurd hempty hne
  · have hempty : heldHighRisks u = [] := List.isEmpty_iff.mp hhr
    have huf : userFindings u = [] := by
      simp only [userFindings]
      rw [if_pos hhr, if_neg hwc, List.nil_append]
    refine ⟨?_, ?_, hsup, ?_, ?_, ?_⟩
    · rw [huf]
      constructor
      · rintro ⟨f, hf, -⟩
        exact absurd hf (List.not_mem_nil f)
      · intro h
        exact absurd hempty h
    · rw [huf]
      intro f hf _
      exact absurd hf (List.not_mem_nil f)
    · rw [huf]
      constructor
      · rintro ⟨f, hf, -⟩
        exact absurd hf (List.not_mem_nil f)
      · intro h
        exact absurd h hwc
    · rw [huf]
      intro f hf _
      exact absurd hf (List.not_mem_nil f)
    · intro hne _
      exact absurd hempty hne
  · have hne : heldHighRisks u ≠ [] := fun hh => hhr (by rw [hh]; rfl)
    refine ⟨?_, ?_, hsup, ?_, ?_, ?_⟩
    · simp only [userFindings]
      rw [if_neg hhr, if_pos hwc, List.singleton_append]
      exact ⟨fun _ => hne, fun _ => ⟨_, List.mem_cons_self _ _, rfl⟩⟩
    · simp only [userFindings]
      rw [if_neg hhr, if_pos hwc, List.singleton_append]
      intro f hf hs
      rcases List.mem_cons.mp hf with h | h
      · rw [h]
        exact hlevel
      · rw [List.mem_singleton.mp h] at hs
        exact absurd hs hne1
    · simp only [userFindings]
      rw [if_neg hhr, if_pos hwc, List.singleton_append]
      refine ⟨fun _ => hwc, fun _ => ⟨_, List.mem_cons_of_mem _ (List.mem_cons_self _ _), rfl⟩⟩
    · simp only [userFindings]
      rw [if_neg hhr, if_pos hwc, List.singleton_append]
      intro f hf hs
      rcases List.mem_cons.mp hf with h | h
      · rw [h] at hs
        exact absurd hs hne2
      · rw [List.mem_singleton.mp h]
    · intro _ _
      simp only [userFindings]
      rw [if_neg hhr, if_pos hwc, List.singleton_append]
      rfl
  · have hne : heldHighRisks u ≠ [] := fun hh => hhr (by rw [hh]; rfl)
    have hufshape : ∀ (l : List Finding), l ++ (if wildcardHostRisk u = true
        then [{ riskType := "权限风险", riskLevel := "中"
                checkItem := "用户权限", tableName := "-", fieldName := "-"
                sensType := "主机权限"
                riskDesc := "用户 " ++ ugetD u "用户名" ++ " 允许从任意主机(%)连接并具有数据操作权限"
                detectValue := "通配符主机权限"
                recordCount := .cdash
                suggestion := "限制用户只能从特定主机连接，避免使用通配符(%)" }] else []) = l := by
      intro l
      rw [if_neg hwc, List.append_nil]
    refine ⟨?_, ?_, hsup, ?_, ?_, ?_⟩
    · simp only [userFindings]
      rw [if_neg hhr, hufshape]
      exact ⟨fun _ => hne, fun _ => ⟨_, List.mem_cons_self _ _, rfl⟩⟩
    · simp only [userFindings]
      rw [if_neg hhr, hufshape]
      intro f hf hs
      rw [List.mem_singleton.mp hf]
      exact hlevel
    · simp only [userFindings]
      rw [if_neg hhr, hufshape]
      constructor
      · rintro ⟨f, hf, hs⟩
        rw [List.mem_singleton.mp hf] at hs
        exact absurd hs hne2
      · intro h
        exact absurd h hwc
    · simp only [userFindings]
      rw [if_neg hhr, hufshape]
      intro f hf hs
      rw [List.mem_singleton.mp hf] at hs
      exact absurd hs hne2
    · intro _ hcontra
      exact absurd hcontra hwc

/-- C7 witness: a root user with super and file privileges on the wildcard
host gets exactly the two findings. -/
theorem user_privilege_findings_witness :
    (userFindings [("用户名", "root"), ("主机", "%"), ("查询权限", "是"),
      ("超级权限", "是"), ("文件权限", "是")]).length = 2 :=
  (user_privilege_findings [("用户名", "root"), ("主机", "%"), ("查询权限", "是"),
      ("超级权限", "是"), ("文件权限", "是")]).2.2.2.2.2 (by decide) (by decide)

end DbAudit
